import Mathlib

/-!
Verification development for the AutoVideoSlice repository.

The repository snapshot contains the React frontend (`frontend/src/...`)
but not the Python backend (`backend/services/task_queue.py`,
`backend/api/video.py`), which is only described by the design document
and the progress log.  Definitions for the backend task queue are
therefore modelled from the specification text and carry a doc comment
starting with `Modelled from the spec:`.  Definitions for the frontend
are shallow embeddings of the JavaScript in `frontend/src`.
-/

set_option maxRecDepth 4096

/-- Modelled from the spec: task lifecycle status (§3 DATA MODEL),
one of pending, running, done, failed; `services/task_queue.py` is not
in the repository snapshot. -/
inductive Status where
  | pending
  | running
  | done
  | failed
deriving DecidableEq, Repr

/-- Terminal states are `done` and `failed` (§3, glossary). -/
def Status.isTerminal : Status → Bool
  | .done => true
  | .failed => true
  | .pending => false
  | .running => false

/-- Rank of a status along the monotonic lifecycle
`pending → running → {done | failed}`. -/
def statusRank : Status → Nat
  | .pending => 0
  | .running => 1
  | .done => 2
  | .failed => 2

/-- Modelled from the spec: the Task record (§3 DATA MODEL).  The spec
field `end` is renamed `endTime` (Lean keyword); `createdAt` is a logical
timestamp, assigned from the creation counter so that creation order and
`createdAt` order agree (§3: used for FIFO ordering). -/
structure CutTask where
  id : Nat
  start : Int
  endTime : Int
  status : Status
  progress : Nat
  outputPath : Option String
  error : Option String
  createdAt : Nat
deriving DecidableEq, Repr

/-- Modelled from the spec: the Task Registry's in-memory store (§4.1,
§6: no persisted state).  `tasks` is kept in creation order (`createdAt`
ascending); `nextId` is the id/timestamp counter for the next task. -/
structure RegState where
  tasks : List CutTask
  nextId : Nat
deriving DecidableEq, Repr

/-- Modelled from the spec: the error taxonomy of the registry boundary
(§7: `InvalidRange`, `NotFound`, `InvalidTransition`). -/
inductive RegError where
  | invalidRange
  | notFound
  | invalidTransition
deriving DecidableEq, Repr

/-- Modelled from the spec: a time range is valid unless `start ≥ end`
or either bound is negative (§4.1 `create`). -/
def validRange (start endTime : Int) : Bool :=
  !(endTime ≤ start || start < 0 || endTime < 0)

/-- Modelled from the spec: the task constructed by `create` — `pending`
state, zero progress, no outcome fields (§4.1, §3 Lifecycle). -/
def mkTask (nid : Nat) (start endTime : Int) : CutTask :=
  { id := nid
    start := start
    endTime := endTime
    status := Status.pending
    progress := 0
    outputPath := none
    error := none
    createdAt := nid }

/-- Modelled from the spec: `create(timeRange) → taskId`, failing with
`InvalidRange` on a bad range and otherwise appending a `pending` task
(§4.1). -/
def create (s : RegState) (start endTime : Int) : Except RegError (Nat × RegState) :=
  if validRange start endTime then
    Except.ok (s.nextId, { tasks := s.tasks ++ [mkTask s.nextId start endTime], nextId := s.nextId + 1 })
  else
    Except.error RegError.invalidRange

/-- Modelled from the spec: batch submission — each range is validated
independently; an invalid range fails with `InvalidRange` and creates no
task, a valid one queues a `pending` task (§6 `submit`, §8 scenarios). -/
def submit (s : RegState) (ranges : List (Int × Int)) : List (Except RegError Nat) × RegState :=
  match ranges with
  | [] => ([], s)
  | r :: rest =>
    match create s r.1 r.2 with
    | Except.ok (tid, s') =>
      let p := submit s' rest
      (Except.ok tid :: p.1, p.2)
    | Except.error e =>
      let p := submit s rest
      (Except.error e :: p.1, p.2)

/-- Tasks created by a batch of ranges when the id counter starts at
`nid`: one fresh `pending` task per valid range, in order. -/
def createdTasks (nid : Nat) (ranges : List (Int × Int)) : List CutTask :=
  match ranges with
  | [] => []
  | r :: rest =>
    if validRange r.1 r.2 then
      mkTask nid r.1 r.2 :: createdTasks (nid + 1) rest
    else
      createdTasks nid rest

/-- Number of valid ranges in a batch. -/
def countValid (ranges : List (Int × Int)) : Nat :=
  ranges.countP (fun r => validRange r.1 r.2)

/-- Modelled from the spec: `list()` returns all tasks in `createdAt`
ascending order (§4.1). -/
def list (s : RegState) : List CutTask :=
  s.tasks

/-- Modelled from the spec: the summary record
`{total, pending, running, done, failed}` (§6 `listTasks`). -/
structure Summary where
  total : Nat
  pending : Nat
  running : Nat
  done : Nat
  failed : Nat
deriving DecidableEq, Repr

/-- One step of the summary aggregation: bump `total` and the counter of
the task's status. -/
def summStep (acc : Summary) (t : CutTask) : Summary :=
  { total := acc.total + 1
    pending := acc.pending + (if t.status = Status.pending then 1 else 0)
    running := acc.running + (if t.status = Status.running then 1 else 0)
    done := acc.done + (if t.status = Status.done then 1 else 0)
    failed := acc.failed + (if t.status = Status.failed then 1 else 0) }

/-- Modelled from the spec: `summary()` is a derived aggregate over
`list()` (§4.1), computed here in a single pass. -/
def summary (s : RegState) : Summary :=
  (list s).foldl summStep { total := 0, pending := 0, running := 0, done := 0, failed := 0 }

/-- Modelled from the spec: `clearCompleted()` removes every task whose
status is `done` or `failed`, keeps the rest, and returns the count
removed (§4.1). -/
def clearCompleted (s : RegState) : Nat × RegState :=
  (s.tasks.countP (fun t => t.status.isTerminal),
   { s with tasks := s.tasks.filter (fun t => !t.status.isTerminal) })

/-- Number of tasks currently in `running` state. -/
def runningCount (s : RegState) : Nat :=
  s.tasks.countP (fun t => t.status == Status.running)

/-- Modelled from the spec: FIFO admission — flip the first (oldest)
`pending` task, if any, to `running` (§4.2: strict FIFO admission by
`createdAt` among pending tasks). -/
def dispatchFirstPending : List CutTask → List CutTask
  | [] => []
  | t :: rest =>
    if t.status = Status.pending then
      { t with status := Status.running } :: rest
    else
      t :: dispatchFirstPending rest

/-- Modelled from the spec: the scheduler admits the next pending task
only when a worker slot is free, i.e. when fewer than `maxConcurrency`
tasks are running; otherwise the state is unchanged and pending tasks
wait (§4.2, §7 Resource exhaustion). -/
def dispatchNext (maxConcurrency : Nat) (s : RegState) : RegState :=
  if runningCount s < maxConcurrency then
    { s with tasks := dispatchFirstPending s.tasks }
  else
    s

/-- Modelled from the spec: clamp a parsed progress value to `[0, 100]`
(§4.3 Progress parsing). -/
def clamp100 (v : Int) : Nat :=
  (min 100 (max 0 v)).toNat

/-- Modelled from the spec: effect of one progress line on the recorded
progress — a malformed or unparsable line (`none`) is ignored, a parsed
value is clamped to `[0, 100]` and never regresses the recorded value
(§4.3 Progress parsing, §9: progress is a monotonic state update). -/
def applyProgress (p : Nat) (parsed : Option Int) : Nat :=
  match parsed with
  | none => p
  | some v => max p (clamp100 v)

/-- Modelled from the spec: the Executor reports a progress update for a
task through the Registry's update contract; the update applies only to
the `running` task with that id, per the monotonic-lifecycle contract
(§4.1 `update`, §3 Ownership). -/
def updateProgress (s : RegState) (tid : Nat) (parsed : Option Int) : RegState :=
  { s with tasks := s.tasks.map (fun t =>
      if t.id = tid ∧ t.status = Status.running then
        { t with progress := applyProgress t.progress parsed }
      else t) }

/-- Modelled from the spec: the Executor's terminal outcome for one task
(§4.3) — success with an output path, or failure with a cause. -/
inductive CutOutcome where
  | success (outputPath : String)
  | failure (msg : String)
deriving DecidableEq, Repr

/-- Effect of a terminal outcome on a single stored task: only the
`running` task with the given id moves to `done`/`failed`, every other
task is untouched. -/
def finishFun (tid : Nat) (oc : CutOutcome) (t : CutTask) : CutTask :=
  if t.id = tid ∧ t.status = Status.running then
    match oc with
    | CutOutcome.success path => { t with status := Status.done, outputPath := some path }
    | CutOutcome.failure msg => { t with status := Status.failed, error := some msg }
  else t

/-- Modelled from the spec: recording a terminal outcome — only a
`running` task with the given id moves to `done`/`failed`; transitions
violating the monotonic lifecycle are rejected, leaving the state
unchanged (§4.1 `update`, §4.3). -/
def finishTask (s : RegState) (tid : Nat) (oc : CutOutcome) : RegState :=
  { s with tasks := s.tasks.map (finishFun tid oc) }

/-- Modelled from the spec: the events that mutate the shared registry —
batch submission, scheduler admission, executor progress reports and
terminal outcomes, and clearing completed tasks (§2 Control flow). -/
inductive Step (maxConcurrency : Nat) : RegState → RegState → Prop where
  | submitStep (s : RegState) (ranges : List (Int × Int)) :
      Step maxConcurrency s (submit s ranges).2
  | dispatchStep (s : RegState) :
      Step maxConcurrency s (dispatchNext maxConcurrency s)
  | reportStep (s : RegState) (tid : Nat) (parsed : Option Int) :
      Step maxConcurrency s (updateProgress s tid parsed)
  | finishStep (s : RegState) (tid : Nat) (oc : CutOutcome) :
      Step maxConcurrency s (finishTask s tid oc)
  | clearStep (s : RegState) :
      Step maxConcurrency s (clearCompleted s).2

/-- Reachability: zero or more registry/scheduler events. -/
abbrev Reachable (maxConcurrency : Nat) : RegState → RegState → Prop :=
  Relation.ReflTransGen (Step maxConcurrency)

/-- Well-formedness of a registry state: every task id is below the id
counter, and ids are pairwise distinct (§3: ids unique for the process
lifetime). -/
abbrev WF (s : RegState) : Prop :=
  (∀ i ∈ s.tasks.map CutTask.id, i < s.nextId) ∧ (s.tasks.map CutTask.id).Nodup

/-- Modelled from the spec: `get`-style lookup of a task by id (§4.1). -/
def findTask (s : RegState) (i : Nat) : Option CutTask :=
  s.tasks.find? (fun t => t.id == i)

/-- The per-step status changes allowed by the monotonic lifecycle:
stay put, be admitted `pending → running`, or finish
`running → done/failed`. -/
def StepStatusOk (a b : Status) : Prop :=
  b = a ∨ (a = Status.pending ∧ b = Status.running) ∨
    (a = Status.running ∧ (b = Status.done ∨ b = Status.failed))

/-- The empty initial registry. -/
def initState : RegState :=
  { tasks := [], nextId := 0 }

/-- A tiny concrete registry state used to instantiate theorems: one
pending task for the range `(0, 5)`. -/
def oneTaskState : RegState :=
  { tasks := [mkTask 0 0 5], nextId := 1 }

/-- The JSON body fields inspected by the frontend request helper
(`frontend/src/services/api.js`, `request`): `detail` and `message`,
each possibly absent. -/
structure JsonBody where
  detail : Option String
  message : Option String
deriving DecidableEq, Repr

/-- Outcome of the `fetch`/`response.json()` pair awaited by `request`
(`api.js` lines 22-23): the fetch itself may reject, the body may fail
to parse, or a response with an `ok` flag and a parsed body arrives. -/
inductive FetchOutcome where
  | fetchFailed (msg : String)
  | parseFailed (ok : Bool) (msg : String)
  | parsed (ok : Bool) (body : JsonBody)
deriving DecidableEq, Repr

/-- JavaScript `||` on a possibly-absent string field: an absent field
and the empty string are falsy, so both fall through to the fallback. -/
def jsOr (o : Option String) (fallback : String) : String :=
  match o with
  | some s => if s = "" then fallback else s
  | none => fallback

/-- The error message built by `request` for a non-ok response
(`api.js` line 26): `data.detail || data.message || '请求失败'`. -/
def errorMessage (b : JsonBody) : String :=
  jsOr b.detail (jsOr b.message "请求失败")

/-- The message the claim's wording predicts: the `detail` field if
present, otherwise `message`, otherwise the default — presence-based
rather than JS-truthiness-based.  Stated from the claim's words for
comparison with `errorMessage`. -/
def claimedErrorMessage (b : JsonBody) : String :=
  match b.detail with
  | some s => s
  | none =>
    match b.message with
    | some s => s
    | none => "请求失败"

/-- Shallow embedding of `request` (`api.js` lines 11-34): a rejected
fetch or a body-parse failure propagates as a thrown error; a non-ok
response throws `Error(data.detail || data.message || '请求失败')`; an
ok response returns the parsed body unchanged. -/
def request : FetchOutcome → Except String JsonBody
  | FetchOutcome.fetchFailed m => Except.error m
  | FetchOutcome.parseFailed _ m => Except.error m
  | FetchOutcome.parsed true b => Except.ok b
  | FetchOutcome.parsed false b => Except.error (errorMessage b)

/-- The label/color/icon record of one `STATUS_CONFIG` entry
(`CutProgress.jsx` lines 11-16). -/
structure StatusStyle where
  label : String
  color : String
  icon : String
deriving DecidableEq, Repr

/-- The `pending` entry of `STATUS_CONFIG` (`CutProgress.jsx` line 12). -/
def pendingStyle : StatusStyle :=
  { label := "排队中", color := "#86868b", icon := "⏳" }

/-- Result of JS bracket access on the `STATUS_CONFIG` object literal:
an own entry (one of the four status records), a truthy member
inherited from `Object.prototype` (a function, or for `__proto__` the
prototype object — in either case without label/color/icon fields), or
`undefined`. -/
inductive ConfigLookup where
  | own (sty : StatusStyle)
  | inherited
  | undef
deriving DecidableEq, Repr

/-- Property keys that every plain object literal inherits from
`Object.prototype`; bracket access with one of these keys on
`STATUS_CONFIG` yields a truthy inherited value, not `undefined`. -/
def objectPrototypeKeys : List String :=
  ["constructor", "hasOwnProperty", "isPrototypeOf", "propertyIsEnumerable",
   "toLocaleString", "toString", "valueOf", "__proto__",
   "__defineGetter__", "__defineSetter__", "__lookupGetter__", "__lookupSetter__"]

/-- Shallow embedding of `STATUS_CONFIG[s]` (`CutProgress.jsx` lines
11-16 and 105) including the prototype chain consulted by JS property
access: the four own entries first, then the members inherited from
`Object.prototype`, and `undefined` for everything else. -/
def STATUS_CONFIG (s : String) : ConfigLookup :=
  if s = "pending" then ConfigLookup.own pendingStyle
  else if s = "running" then ConfigLookup.own { label := "进行中", color := "#0071e3", icon := "⚙️" }
  else if s = "done" then ConfigLookup.own { label := "完成", color := "#34c759", icon := "✅" }
  else if s = "failed" then ConfigLookup.own { label := "失败", color := "#ff3b30", icon := "❌" }
  else if s ∈ objectPrototypeKeys then ConfigLookup.inherited
  else ConfigLookup.undef

/-- The config object picked in the render loop (`CutProgress.jsx`
line 105): `STATUS_CONFIG[task.status] || STATUS_CONFIG.pending` —
only the falsy `undefined` lookup falls back to the pending entry; a
truthy inherited member is used as the config even though it carries no
label/color/icon. -/
def selectedConfig (status : String) : ConfigLookup :=
  if STATUS_CONFIG status = ConfigLookup.undef then ConfigLookup.own pendingStyle
  else STATUS_CONFIG status

/-- What one activation of the auto-refresh effect installs
(`CutProgress.jsx` lines 39-46): an immediate `fetchTasks()` call, plus
a 1000 ms `setInterval` re-fetch when `autoRefresh` is on and no timer
at all when it is off (the cleanup clears the timer). -/
structure RefreshEffect where
  immediateFetch : Bool
  intervalMs : Option Nat
deriving DecidableEq, Repr

/-- Shallow embedding of the `useEffect` body (`CutProgress.jsx` lines
39-46). -/
def cutProgressEffect (autoRefresh : Bool) : RefreshEffect :=
  { immediateFetch := true
    intervalMs := if autoRefresh then some 1000 else none }

/-- Number of `fetchTasks` calls performed within `elapsedMs`
milliseconds of one effect activation: the immediate fetch plus one per
elapsed timer period. -/
def fetchCount (autoRefresh : Bool) (elapsedMs : Nat) : Nat :=
  (if (cutProgressEffect autoRefresh).immediateFetch then 1 else 0) +
    (match (cutProgressEffect autoRefresh).intervalMs with
     | some p => elapsedMs / p
     | none => 0)

/-- Shallow embedding of the export panel's `toggleSelect`
(`CutProgress.jsx`/ExportPanel lines 179-185):
`prev.includes(id) ? prev.filter(i => i !== id) : [...prev, id]`. -/
def toggleSelect {α : Type} [DecidableEq α] (id : α) (prev : List α) : List α :=
  if id ∈ prev then prev.filter (fun i => i ≠ id) else prev ++ [id]

/-! ### Helper lemmas -/

/-- Folding `summStep` over a task list adds the length and per-status
counts to the accumulator. -/
theorem summary_foldl (l : List CutTask) (acc : Summary) :
    l.foldl summStep acc =
      { total := acc.total + l.length
        pending := acc.pending + l.countP (fun t => t.status == Status.pending)
        running := acc.running + l.countP (fun t => t.status == Status.running)
        done := acc.done + l.countP (fun t => t.status == Status.done)
        failed := acc.failed + l.countP (fun t => t.status == Status.failed) } := by
  induction l generalizing acc with
  | nil => rfl
  | cons a l ih =>
    rw [List.foldl_cons, ih]
    cases h : a.status <;>
      simp [summStep, List.countP_cons, h, Summary.mk.injEq] <;> omega

/-- A status is terminal exactly when it is `done` or `failed`. -/
theorem isTerminal_iff (st : Status) :
    st.isTerminal = true ↔ st = Status.done ∨ st = Status.failed := by
  cases st <;> simp [Status.isTerminal]

/-- The state after a batch submission: the old tasks followed by the
freshly created ones, with the id counter advanced by the number of
valid ranges. -/
theorem submit_state (s : RegState) (ranges : List (Int × Int)) :
    (submit s ranges).2 =
      { tasks := s.tasks ++ createdTasks s.nextId ranges
        nextId := s.nextId + countValid ranges } := by
  induction ranges generalizing s with
  | nil => simp [submit, createdTasks, countValid]
  | cons r rest ih =>
    cases h : validRange r.1 r.2 with
    | false =>
      simp [submit, create, h, createdTasks, countValid, List.countP_cons, ih]
    | true =>
      simp [submit, create, h, createdTasks, countValid, List.countP_cons, ih,
        RegState.mk.injEq]
      omega

/-- Every freshly created task is `pending` with zero progress and no
outcome fields. -/
theorem createdTasks_fields (nid : Nat) (ranges : List (Int × Int)) :
    ∀ t ∈ createdTasks nid ranges,
      t.status = Status.pending ∧ t.progress = 0 ∧ t.outputPath = none ∧ t.error = none := by
  induction ranges generalizing nid with
  | nil => simp [createdTasks]
  | cons r rest ih =>
    cases h : validRange r.1 r.2 with
    | false =>
      simpa [createdTasks, h] using ih nid
    | true =>
      intro t ht
      rcases List.mem_cons.mp (by simpa [createdTasks, h] using ht) with rfl | ht'
      · exact ⟨rfl, rfl, rfl, rfl⟩
      · exact ih (nid + 1) t ht'

/-- The time ranges of the freshly created tasks are exactly the valid
ranges of the batch, in order. -/
theorem createdTasks_ranges (nid : Nat) (ranges : List (Int × Int)) :
    (createdTasks nid ranges).map (fun t => (t.start, t.endTime)) =
      ranges.filter (fun r => validRange r.1 r.2) := by
  induction ranges generalizing nid with
  | nil => rfl
  | cons r rest ih =>
    cases h : validRange r.1 r.2 <;>
      simp [createdTasks, h, mkTask, ih]

/-- The ids of the freshly created tasks are the consecutive fresh ids
starting at the id counter. -/
theorem createdTasks_ids (nid : Nat) (ranges : List (Int × Int)) :
    (createdTasks nid ranges).map CutTask.id = List.range' nid (countValid ranges) := by
  induction ranges generalizing nid with
  | nil => rfl
  | cons r rest ih =>
    cases h : validRange r.1 r.2 <;>
      simp [createdTasks, h, countValid, List.countP_cons, mkTask, ih, List.range'_succ]

/-- The per-range results of a batch submission: an `ok` id for each
valid range, `InvalidRange` for each invalid one. -/
theorem submit_results (s : RegState) (ranges : List (Int × Int)) :
    List.Forall₂ (fun (r : Int × Int) (res : Except RegError Nat) =>
        if validRange r.1 r.2 = true then ∃ tid, res = Except.ok tid
        else res = Except.error RegError.invalidRange)
      ranges (submit s ranges).1 := by
  induction ranges generalizing s with
  | nil => exact List.Forall₂.nil
  | cons r rest ih =>
    cases h : validRange r.1 r.2 with
    | true =>
      simp only [submit, create, h, if_true]
      exact List.Forall₂.cons (by simp [h]) (ih _)
    | false =>
      simp only [submit, create, h, Bool.false_eq_true, if_false]
      exact List.Forall₂.cons (by simp [h]) (ih _)

/-! ### Claim theorems -/

/-- Claim C3: for every registry state, `summary()` returns exactly the
counts obtained by filtering `list()` by each status value (total,
pending, running, done, failed); the two views are never independently
stale. -/
theorem summary_eq_list_counts (s : RegState) :
    summary s =
      { total := (list s).length
        pending := ((list s).filter (fun t => t.status == Status.pending)).length
        running := ((list s).filter (fun t => t.status == Status.running)).length
        done := ((list s).filter (fun t => t.status == Status.done)).length
        failed := ((list s).filter (fun t => t.status == Status.failed)).length } := by
  rw [summary, summary_foldl]
  simp [List.countP_eq_length_filter]

/-- Claim C4: `clearCompleted()` removes exactly the tasks whose status
is `done` or `failed`, leaves every `pending`/`running` task in place,
returns the count removed, and a second immediate invocation removes 0
tasks and leaves the state unchanged. -/
theorem clearCompleted_spec (s : RegState) :
    (∀ t, t ∈ (clearCompleted s).2.tasks ↔
        t ∈ s.tasks ∧ t.status ≠ Status.done ∧ t.status ≠ Status.failed) ∧
    (clearCompleted s).1 =
      ((list s).filter (fun t => t.status == Status.done || t.status == Status.failed)).length ∧
    clearCompleted (clearCompleted s).2 = (0, (clearCompleted s).2) := by
  refine ⟨?_, ?_, ?_⟩
  · intro t
    simp only [clearCompleted, List.mem_filter]
    cases h : t.status <;> simp [Status.isTerminal, h]
  · simp only [clearCompleted, list, List.countP_eq_length_filter]
    congr 1
    apply List.filter_congr
    intro t _
    cases h : t.status <;> simp [Status.isTerminal, h]
  · have hkeep : List.filter (fun t => !t.status.isTerminal)
        (List.filter (fun t => !t.status.isTerminal) s.tasks)
        = List.filter (fun t => !t.status.isTerminal) s.tasks := by
      apply List.filter_eq_self.mpr
      intro t ht
      exact (List.mem_filter.mp ht).2
    have hzero : (s.tasks.filter (fun t => !t.status.isTerminal)).countP
        (fun t => t.status.isTerminal) = 0 := by
      rw [List.countP_eq_zero]
      intro t ht
      have h2 := (List.mem_filter.mp ht).2
      simp at h2
      simp [h2]
    simp [clearCompleted, Prod.mk.injEq, RegState.mk.injEq, hkeep, hzero]

/-- Claim C5: in every batch submission, each time range with
`start ≥ end` or a negative bound fails synchronously with
`InvalidRange` and creates no task, while every valid range in the same
batch is still queued as a `pending` task; invalid requests never enter
the queue. -/
theorem submit_batch_spec (s : RegState) (ranges : List (Int × Int)) :
    List.Forall₂ (fun (r : Int × Int) (res : Except RegError Nat) =>
        if validRange r.1 r.2 = true then ∃ tid, res = Except.ok tid
        else res = Except.error RegError.invalidRange)
      ranges (submit s ranges).1 ∧
    (submit s ranges).2.tasks.take s.tasks.length = s.tasks ∧
    ((submit s ranges).2.tasks.drop s.tasks.length).map (fun t => (t.start, t.endTime)) =
      ranges.filter (fun r => validRange r.1 r.2) ∧
    (∀ t ∈ (submit s ranges).2.tasks.drop s.tasks.length, t.status = Status.pending) := by
  refine ⟨submit_results s ranges, ?_, ?_, ?_⟩
  · rw [submit_state]
    simp [List.take_left]
  · rw [submit_state]
    simp [List.drop_left, createdTasks_ranges]
  · rw [submit_state]
    simp only [List.drop_left]
    intro t ht
    exact (createdTasks_fields s.nextId ranges t ht).1

/-- Non-vacuity instance for claim C5: submitting the single valid range
`(0, 5)` to the empty registry queues one task, and that task is
`pending`. -/
theorem submit_batch_witness :
    (mkTask 0 0 5).status = Status.pending :=
  (submit_batch_spec initState [(0, 5)]).2.2.2 (mkTask 0 0 5) (by decide)

/-- A clamped progress value never exceeds 100. -/
theorem clamp100_le (v : Int) : clamp100 v ≤ 100 := by
  simp only [clamp100]
  rw [Int.toNat_le]
  exact min_le_left _ _

/-- A progress update never regresses the recorded value. -/
theorem le_applyProgress (p : Nat) (parsed : Option Int) : p ≤ applyProgress p parsed := by
  cases parsed with
  | none => exact Nat.le_refl p
  | some v => exact Nat.le_max_left _ _

/-- A progress update keeps the recorded value within the bound. -/
theorem applyProgress_le (p : Nat) (parsed : Option Int) (hp : p ≤ 100) :
    applyProgress p parsed ≤ 100 := by
  cases parsed with
  | none => exact hp
  | some v => exact Nat.max_le.mpr ⟨hp, clamp100_le v⟩

/-- A list relates pointwise to its image under a map whenever the
relation holds at every element. -/
theorem forall₂_self_map {α : Type} {l : List α} {f : α → α} {R : α → α → Prop}
    (h : ∀ t, R t (f t)) : List.Forall₂ R l (l.map f) := by
  induction l with
  | nil => exact List.Forall₂.nil
  | cons a l ih => exact List.Forall₂.cons (h a) ih

/-- Claim C6: for every task while it is running, its progress stays
within `[0, 100]` and is non-decreasing across successive updates: a
parsed value is clamped to `[0, 100]`, and a malformed or unparsable
progress line is ignored and never lowers the recorded progress. -/
theorem progress_spec :
    (∀ (s : RegState) (tid : Nat) (parsed : Option Int), List.Forall₂
        (fun t t' => t.progress ≤ t'.progress ∧ (t.progress ≤ 100 → t'.progress ≤ 100) ∧
          t'.status = t.status ∧ t'.id = t.id)
        s.tasks (updateProgress s tid parsed).tasks) ∧
    (∀ p, applyProgress p none = p) ∧
    (∀ p parsed, p ≤ applyProgress p parsed) ∧
    (∀ p parsed, p ≤ 100 → applyProgress p parsed ≤ 100) ∧
    (∀ (p : Nat) (lines : List (Option Int)), p ≤ lines.foldl applyProgress p) ∧
    (∀ (p : Nat) (lines : List (Option Int)), p ≤ 100 → lines.foldl applyProgress p ≤ 100) := by
  have hfold₁ : ∀ (lines : List (Option Int)) (p : Nat), p ≤ lines.foldl applyProgress p := by
    intro lines
    induction lines with
    | nil => exact fun p => Nat.le_refl p
    | cons a lines ih =>
      intro p
      exact Nat.le_trans (le_applyProgress p a) (ih (applyProgress p a))
  have hfold₂ : ∀ (lines : List (Option Int)) (p : Nat),
      p ≤ 100 → lines.foldl applyProgress p ≤ 100 := by
    intro lines
    induction lines with
    | nil => exact fun p hp => hp
    | cons a lines ih =>
      intro p hp
      exact ih (applyProgress p a) (applyProgress_le p a hp)
  refine ⟨?_, fun p => rfl, le_applyProgress, applyProgress_le,
    fun p lines => hfold₁ lines p, fun p lines => hfold₂ lines p⟩
  intro s tid parsed
  apply forall₂_self_map
  intro t
  by_cases h : t.id = tid ∧ t.status = Status.running
  · rw [if_pos h]
    exact ⟨le_applyProgress _ _, fun hp => applyProgress_le _ _ hp, rfl, rfl⟩
  · rw [if_neg h]
    exact ⟨Nat.le_refl _, fun hp => hp, rfl, rfl⟩

/-- Non-vacuity instance for claim C6: an update parsed as 150 from
progress 0 stays within the bound. -/
theorem progress_witness : applyProgress 0 (some 150) ≤ 100 :=
  progress_spec.2.2.2.1 0 (some 150) (by decide)

/-- Claim C7: the polling client re-fetches the task list on a fixed
1-second interval while auto-refresh is enabled (one immediate fetch
plus one per elapsed second), and performs only the initial fetch when
auto-refresh is disabled; the effect installs a timer, not a
push/streaming channel. -/
theorem polling_spec :
    (cutProgressEffect true).intervalMs = some 1000 ∧
    (cutProgressEffect false).intervalMs = none ∧
    (cutProgressEffect true).immediateFetch = true ∧
    (cutProgressEffect false).immediateFetch = true ∧
    (∀ k, fetchCount true (1000 * k) = 1 + k) ∧
    (∀ t, fetchCount false t = 1) := by
  refine ⟨rfl, rfl, rfl, rfl, ?_, fun t => rfl⟩
  intro k
  simp only [fetchCount, cutProgressEffect, if_true, if_pos]
  rw [Nat.mul_div_cancel_left k (by norm_num)]

/-- Claim C8, counterexample: with body `{detail: "", message: "m"}`,
`request` throws `Error("m")` (JS `||` skips the falsy empty string),
while the claim's presence-based reading predicts message `""`. -/
theorem request_counterexample :
    request (FetchOutcome.parsed false { detail := some "", message := some "m" }) =
      Except.error "m" ∧
    claimedErrorMessage { detail := some "", message := some "m" } = "" ∧
    request (FetchOutcome.parsed false { detail := some "", message := some "m" }) ≠
      Except.error (claimedErrorMessage { detail := some "", message := some "m" }) := by
  refine ⟨rfl, rfl, fun h => ?_⟩
  have : "m" = "" := by
    have h1 : request (FetchOutcome.parsed false { detail := some "", message := some "m" }) =
        Except.error "m" := rfl
    exact Except.error.inj (h1 ▸ h)
  exact absurd this (by decide)

/-- Claim C8, amended: for every call through the frontend request
helper, a non-ok response throws an Error whose message is the body's
`detail` field if present and non-empty, otherwise its `message` field
if present and non-empty, otherwise `'请求失败'` (JS truthiness); an ok
response returns the parsed body unchanged; the call raises exactly when
the response is not ok or the fetch/parse itself fails. -/
theorem request_spec :
    (∀ b, request (FetchOutcome.parsed true b) = Except.ok b) ∧
    (∀ b s, b.detail = some s → s ≠ "" →
      request (FetchOutcome.parsed false b) = Except.error s) ∧
    (∀ b s, (b.detail = none ∨ b.detail = some "") → b.message = some s → s ≠ "" →
      request (FetchOutcome.parsed false b) = Except.error s) ∧
    (∀ b, (b.detail = none ∨ b.detail = some "") → (b.message = none ∨ b.message = some "") →
      request (FetchOutcome.parsed false b) = Except.error "请求失败") ∧
    (∀ f, (∃ b, request f = Except.ok b) ↔ ∃ b, f = FetchOutcome.parsed true b) := by
  refine ⟨fun b => rfl, ?_, ?_, ?_, ?_⟩
  · intro b s hd hs
    simp [request, errorMessage, jsOr, hd, hs]
  · intro b s hd hm hs
    rcases hd with hd | hd <;> simp [request, errorMessage, jsOr, hd, hm, hs]
  · intro b hd hm
    rcases hd with hd | hd <;> rcases hm with hm | hm <;>
      simp [request, errorMessage, jsOr, hd, hm]
  · intro f
    cases f with
    | fetchFailed m => simp [request]
    | parseFailed ok m => simp [request]
    | parsed ok b =>
      cases ok with
      | true => simp [request]
      | false => simp [request]

/-- Non-vacuity instance for claim C8: a non-ok response whose body has
a non-empty `detail` throws that detail. -/
theorem request_witness :
    request (FetchOutcome.parsed false { detail := some "x", message := none }) =
      Except.error "x" :=
  request_spec.2.1 { detail := some "x", message := none } "x" rfl (by decide)

/-- Claim C9, counterexample: at the status string `"toString"` the
bracket lookup yields the truthy member inherited from
`Object.prototype`, so `|| STATUS_CONFIG.pending` does not fall back to
the pending configuration — the claimed total fallback over arbitrary
status strings fails. -/
theorem statusStyle_counterexample :
    STATUS_CONFIG "toString" = ConfigLookup.inherited ∧
    selectedConfig "toString" = ConfigLookup.inherited ∧
    selectedConfig "toString" ≠ ConfigLookup.own pendingStyle := by
  decide

/-- Claim C9, amended: for every task rendered by CutProgress, a status
outside pending/running/done/failed that is also not a property key
inherited from `Object.prototype` looks up as `undefined` and falls
back to the pending configuration; a known status uses its own entry;
but for an inherited key (toString, constructor, `__proto__`, ...) the
truthy inherited member is used as the config and no fallback occurs,
so the lookup is not total over arbitrary status strings. -/
theorem statusStyle_spec :
    (∀ s, s ≠ "pending" → s ≠ "running" → s ≠ "done" → s ≠ "failed" →
      s ∉ objectPrototypeKeys →
      STATUS_CONFIG s = ConfigLookup.undef ∧
        selectedConfig s = ConfigLookup.own pendingStyle) ∧
    (∀ s sty, STATUS_CONFIG s = ConfigLookup.own sty →
      selectedConfig s = ConfigLookup.own sty) ∧
    (∀ s ∈ objectPrototypeKeys, selectedConfig s = ConfigLookup.inherited) := by
  refine ⟨?_, ?_, ?_⟩
  · intro s h1 h2 h3 h4 h5
    have hc : STATUS_CONFIG s = ConfigLookup.undef := by
      simp [STATUS_CONFIG, h1, h2, h3, h4, h5]
    exact ⟨hc, by simp [selectedConfig, hc]⟩
  · intro s sty h
    simp [selectedConfig, h]
  · intro s hs
    fin_cases hs <;> decide

/-- Non-vacuity instance for the amended claim C9: the unknown,
non-inherited status string `"cancelled"` renders with the pending
configuration. -/
theorem statusStyle_witness :
    STATUS_CONFIG "cancelled" = ConfigLookup.undef ∧
    selectedConfig "cancelled" = ConfigLookup.own pendingStyle :=
  statusStyle_spec.1 "cancelled" (by decide) (by decide) (by decide) (by decide) (by decide)

/-- Claim C10: on a duplicate-free selection list, applying the export
panel's `toggleSelect` twice with the same id restores exactly the
original membership; a present id is removed (by filtering), an absent
id is appended. -/
theorem toggleSelect_spec {α : Type} [DecidableEq α] (id : α) (l : List α) (_hl : l.Nodup) :
    (∀ x, x ∈ toggleSelect id (toggleSelect id l) ↔ x ∈ l) ∧
    (id ∈ l → toggleSelect id l = l.filter (fun i => i ≠ id)) ∧
    (id ∉ l → toggleSelect id l = l ++ [id]) := by
  refine ⟨?_, fun h => by simp [toggleSelect, h], fun h => by simp [toggleSelect, h]⟩
  intro x
  by_cases h : id ∈ l
  · simp only [toggleSelect, if_pos h]
    have hid : id ∉ l.filter (fun i => i ≠ id) := by simp
    rw [if_neg hid]
    by_cases hx : x = id
    · simp [hx, h]
    · simp [List.mem_filter, hx]
  · simp only [toggleSelect, if_neg h]
    have hid : id ∈ l ++ [id] := by simp
    rw [if_pos hid]
    have hfil : (l ++ [id]).filter (fun i => i ≠ id) = l := by
      rw [List.filter_append]
      have : l.filter (fun i => i ≠ id) = l := by
        apply List.filter_eq_self.mpr
        intro a ha
        have hne : a ≠ id := fun hEq => h (hEq ▸ ha)
        simp [hne]
      simp [this]
      intro a ha
      exact fun hEq => h (hEq ▸ ha)
    rw [hfil]

/-- Non-vacuity instance for claim C10: toggling 2 twice on `[1, 2, 3]`
preserves membership of 3. -/
theorem toggleSelect_witness :
    3 ∈ toggleSelect 2 (toggleSelect 2 [1, 2, 3]) ↔ 3 ∈ [1, 2, 3] :=
  (toggleSelect_spec 2 [1, 2, 3] (by decide)).1 3

/-- A batch submission does not change the number of running tasks:
every created task is `pending`. -/
theorem runningCount_submit (s : RegState) (ranges : List (Int × Int)) :
    runningCount (submit s ranges).2 = runningCount s := by
  rw [submit_state]
  simp only [runningCount, List.countP_append]
  have : (createdTasks s.nextId ranges).countP (fun t => t.status == Status.running) = 0 := by
    rw [List.countP_eq_zero]
    intro t ht
    have := (createdTasks_fields s.nextId ranges t ht).1
    simp [this]
  rw [this]
  omega

/-- Admitting the first pending task increases the running count by at
most one. -/
theorem countP_dispatchFirstPending (l : List CutTask) :
    (dispatchFirstPending l).countP (fun t => t.status == Status.running) ≤
      l.countP (fun t => t.status == Status.running) + 1 := by
  induction l with
  | nil => simp [dispatchFirstPending]
  | cons t rest ih =>
    by_cases h : t.status = Status.pending
    · simp [dispatchFirstPending, h, List.countP_cons]
    · simp only [dispatchFirstPending, if_neg h, List.countP_cons]
      cases hb : (t.status == Status.running) <;> simp <;> omega

/-- A progress report does not change any task's status, hence not the
running count. -/
theorem runningCount_updateProgress (s : RegState) (tid : Nat) (parsed : Option Int) :
    runningCount (updateProgress s tid parsed) = runningCount s := by
  simp only [runningCount, updateProgress, List.countP_map]
  apply List.countP_congr
  intro t _
  by_cases h : t.id = tid ∧ t.status = Status.running
  · simp only [Function.comp_apply, if_pos h]
  · simp only [Function.comp_apply, if_neg h]

/-- Recording a terminal outcome never increases the running count. -/
theorem runningCount_finishTask (s : RegState) (tid : Nat) (oc : CutOutcome) :
    runningCount (finishTask s tid oc) ≤ runningCount s := by
  simp only [runningCount, finishTask, List.countP_map]
  apply List.countP_mono_left
  intro t _ hp
  rw [Function.comp_apply] at hp
  by_cases h : t.id = tid ∧ t.status = Status.running
  · rw [finishFun.eq_def, if_pos h] at hp
    cases oc <;> simp at hp
  · rwa [finishFun.eq_def, if_neg h] at hp

/-- Clearing completed tasks never increases the running count. -/
theorem runningCount_clearCompleted (s : RegState) :
    runningCount (clearCompleted s).2 ≤ runningCount s :=
  List.Sublist.countP_le _ (List.filter_sublist s.tasks)

/-- One scheduler/registry event preserves the concurrency bound. -/
theorem runningCount_step {mc : Nat} {s s' : RegState} (h : Step mc s s')
    (hs : runningCount s ≤ mc) : runningCount s' ≤ mc := by
  cases h with
  | submitStep ranges => rw [runningCount_submit]; exact hs
  | dispatchStep =>
    by_cases hg : runningCount s < mc
    · rw [dispatchNext, if_pos hg]
      calc (dispatchFirstPending s.tasks).countP (fun t => t.status == Status.running)
          ≤ runningCount s + 1 := countP_dispatchFirstPending s.tasks
        _ ≤ mc := hg
    · rwa [dispatchNext, if_neg hg]
  | reportStep tid parsed => rw [runningCount_updateProgress]; exact hs
  | finishStep tid oc => exact le_trans (runningCount_finishTask s tid oc) hs
  | clearStep => exact le_trans (runningCount_clearCompleted s) hs

/-- The concurrency bound holds in every state reachable while it
holds. -/
theorem runningCount_reachable {mc : Nat} {s s' : RegState} (h : Reachable mc s s')
    (hs : runningCount s ≤ mc) : runningCount s' ≤ mc := by
  induction h with
  | refl => exact hs
  | tail _ hstep ih => exact runningCount_step hstep ih

/-- Claim C2: in every reachable state of the scheduler and registry,
the number of tasks whose status is `running` is at most
`maxConcurrency`; when all worker slots are occupied the scheduler
admits nothing, and a newly submitted task is queued as `pending` rather
than failing. -/
theorem concurrency_bound (mc : Nat) (s : RegState) :
    (Reachable mc initState s → runningCount s ≤ mc) ∧
    (mc ≤ runningCount s → dispatchNext mc s = s) ∧
    (∀ ranges, ∀ t ∈ (submit s ranges).2.tasks.drop s.tasks.length,
      t.status = Status.pending) := by
  refine ⟨fun h => runningCount_reachable h (by simp [initState, runningCount]), fun h => ?_, ?_⟩
  · rw [dispatchNext, if_neg (Nat.not_lt.mpr h)]
  · intro ranges t ht
    rw [submit_state] at ht
    simp only [List.drop_left] at ht
    exact (createdTasks_fields s.nextId ranges t ht).1

/-- Non-vacuity instance for claim C2: the empty initial registry is
reachable from itself and satisfies the bound for `maxConcurrency = 2`. -/
theorem concurrency_bound_witness : runningCount initState ≤ 2 :=
  (concurrency_bound 2 initState).1 Relation.ReflTransGen.refl

/-- Admission does not change the ids of the stored tasks. -/
theorem dispatchFirstPending_map_id (l : List CutTask) :
    (dispatchFirstPending l).map CutTask.id = l.map CutTask.id := by
  induction l with
  | nil => rfl
  | cons t rest ih =>
    by_cases h : t.status = Status.pending
    · simp [dispatchFirstPending, h]
    · simp [dispatchFirstPending, h, ih]

/-- A progress report does not change the ids of the stored tasks. -/
theorem updateProgress_map_id (s : RegState) (tid : Nat) (parsed : Option Int) :
    (updateProgress s tid parsed).tasks.map CutTask.id = s.tasks.map CutTask.id := by
  simp only [updateProgress, List.map_map]
  apply List.map_congr_left
  intro t _
  by_cases h : t.id = tid ∧ t.status = Status.running
  · rw [Function.comp_apply, if_pos h]
  · rw [Function.comp_apply, if_neg h]

/-- Recording a terminal outcome does not change the ids of the stored
tasks. -/
theorem finishFun_id (tid : Nat) (oc : CutOutcome) (t : CutTask) :
    (finishFun tid oc t).id = t.id := by
  by_cases h : t.id = tid ∧ t.status = Status.running
  · rw [finishFun.eq_def, if_pos h]
    cases oc <;> rfl
  · rw [finishFun.eq_def, if_neg h]

theorem finishTask_map_id (s : RegState) (tid : Nat) (oc : CutOutcome) :
    (finishTask s tid oc).tasks.map CutTask.id = s.tasks.map CutTask.id := by
  simp only [finishTask, List.map_map]
  apply List.map_congr_left
  intro t _
  rw [Function.comp_apply, finishFun_id]

/-- The id counter never decreases across an event. -/
theorem step_nextId_le {mc : Nat} {s s' : RegState} (h : Step mc s s') :
    s.nextId ≤ s'.nextId := by
  cases h with
  | submitStep ranges => rw [submit_state]; exact Nat.le_add_right _ _
  | dispatchStep =>
    by_cases hg : runningCount s < mc
    · rw [dispatchNext, if_pos hg]
    · rw [dispatchNext, if_neg hg]
  | reportStep tid parsed => exact Nat.le_refl _
  | finishStep tid oc => exact Nat.le_refl _
  | clearStep => exact Nat.le_refl _

/-- The id counter never decreases along a trace. -/
theorem reachable_nextId_le {mc : Nat} {s s' : RegState} (h : Reachable mc s s') :
    s.nextId ≤ s'.nextId := by
  induction h with
  | refl => exact Nat.le_refl _
  | tail _ hstep ih => exact le_trans ih (step_nextId_le hstep)

/-- Well-formedness transfers along equal id lists and counters. -/
theorem WF_of_same_ids {s s' : RegState}
    (hids : s'.tasks.map CutTask.id = s.tasks.map CutTask.id)
    (hnid : s'.nextId = s.nextId) (hwf : WF s) : WF s' := by
  constructor
  · intro i hi
    rw [hnid]
    exact hwf.1 i (hids ▸ hi)
  · rw [hids]
    exact hwf.2

/-- Every event preserves well-formedness: ids stay below the counter
and pairwise distinct. -/
theorem WF_step {mc : Nat} {s s' : RegState} (h : Step mc s s') (hwf : WF s) : WF s' := by
  cases h with
  | submitStep ranges =>
    rw [submit_state]
    constructor
    · intro i hi
      simp only [List.map_append, List.mem_append, createdTasks_ids] at hi
      rcases hi with hi | hi
      · exact lt_of_lt_of_le (hwf.1 i hi) (Nat.le_add_right _ _)
      · rcases List.mem_range'.mp hi with ⟨j, hj, hEq⟩
        simp only
        omega
    · simp only [List.map_append, createdTasks_ids]
      apply List.Nodup.append hwf.2 (List.nodup_range' _ _)
      rw [List.disjoint_left]
      intro a ha hb
      have h1 := hwf.1 a ha
      rcases List.mem_range'.mp hb with ⟨j, hj, hEq⟩
      omega
  | dispatchStep =>
    by_cases hg : runningCount s < mc
    · rw [dispatchNext, if_pos hg]
      exact WF_of_same_ids (dispatchFirstPending_map_id s.tasks) rfl hwf
    · rwa [dispatchNext, if_neg hg]
  | reportStep tid parsed =>
    exact WF_of_same_ids (updateProgress_map_id s tid parsed) rfl hwf
  | finishStep tid oc =>
    exact WF_of_same_ids (finishTask_map_id s tid oc) rfl hwf
  | clearStep =>
    have hsub : ((clearCompleted s).2.tasks.map CutTask.id).Sublist (s.tasks.map CutTask.id) :=
      (List.filter_sublist s.tasks).map CutTask.id
    constructor
    · intro i hi
      exact hwf.1 i (hsub.subset hi)
    · exact hwf.2.sublist hsub

/-- Well-formedness holds in every state reachable from a well-formed
one. -/
theorem WF_reachable {mc : Nat} {s s' : RegState} (hwf : WF s) (h : Reachable mc s s') :
    WF s' := by
  induction h with
  | refl => exact hwf
  | tail _ hstep ih => exact WF_step hstep ih

/-- A task found before a batch submission is found unchanged after
it. -/
theorem findTask_submit {s : RegState} {ranges : List (Int × Int)} {i : Nat} {t : CutTask}
    (h : findTask s i = some t) : findTask (submit s ranges).2 i = some t := by
  rw [submit_state]
  simp only [findTask] at h ⊢
  rw [List.find?_append, h, Option.or_some]

/-- Lookup through an id-preserving map of the store. -/
theorem find?_id_map {l : List CutTask} {f : CutTask → CutTask}
    (hf : ∀ t, (f t).id = t.id) (i : Nat) :
    (l.map f).find? (fun t => t.id == i) = (l.find? (fun t => t.id == i)).map f := by
  rw [List.find?_map]
  have hfun : ((fun t : CutTask => t.id == i) ∘ f) = (fun t : CutTask => t.id == i) :=
    funext fun t => by rw [Function.comp_apply, hf t]
  rw [hfun]

/-- A task found after admission was present before, either unchanged or
flipped from `pending` to `running`. -/
theorem find?_id_dispatchFirstPending {l : List CutTask} {i : Nat} {t' : CutTask}
    (h : (dispatchFirstPending l).find? (fun t => t.id == i) = some t') :
    ∃ t, l.find? (fun t => t.id == i) = some t ∧
      (t' = t ∨ (t.status = Status.pending ∧ t' = { t with status := Status.running })) := by
  induction l with
  | nil => simp [dispatchFirstPending] at h
  | cons a rest ih =>
    by_cases hp : a.status = Status.pending
    · simp only [dispatchFirstPending, if_pos hp] at h
      by_cases hi : a.id = i
      · rw [List.find?_cons_of_pos _ (by simpa using hi)] at h
        refine ⟨a, List.find?_cons_of_pos _ (by simpa using hi), Or.inr ⟨hp, ?_⟩⟩
        exact (Option.some.inj h).symm
      · rw [List.find?_cons_of_neg _ (by simpa using hi)] at h
        exact ⟨t', by rw [List.find?_cons_of_neg _ (by simpa using hi)]; exact h, Or.inl rfl⟩
    · simp only [dispatchFirstPending, if_neg hp] at h
      by_cases hi : a.id = i
      · rw [List.find?_cons_of_pos _ (by simpa using hi)] at h
        exact ⟨a, List.find?_cons_of_pos _ (by simpa using hi),
          Or.inl (Option.some.inj h).symm⟩
      · rw [List.find?_cons_of_neg _ (by simpa using hi)] at h
        obtain ⟨t, hfind, hrel⟩ := ih h
        exact ⟨t, by rw [List.find?_cons_of_neg _ (by simpa using hi)]; exact hfind, hrel⟩

/-- An allowed per-step change never decreases the lifecycle rank. -/
theorem StepStatusOk.rank_le {a b : Status} (h : StepStatusOk a b) :
    statusRank a ≤ statusRank b := by
  rcases h with rfl | ⟨rfl, rfl⟩ | ⟨rfl, rfl | rfl⟩
  · exact Nat.le_refl _
  · decide
  · decide
  · decide

/-- An allowed per-step change leaves a terminal status unchanged. -/
theorem StepStatusOk.terminal {a b : Status} (h : StepStatusOk a b)
    (ht : a.isTerminal = true) : b = a := by
  rcases h with rfl | ⟨rfl, rfl⟩ | ⟨rfl, rfl | rfl⟩
  · rfl
  · simp [Status.isTerminal] at ht
  · simp [Status.isTerminal] at ht
  · simp [Status.isTerminal] at ht

/-- Across one event, a task's status either stays put, moves
`pending → running`, or moves `running → done/failed`. -/
theorem step_status {mc : Nat} {s s' : RegState} (h : Step mc s s') (hwf : WF s)
    {i : Nat} {t t' : CutTask}
    (hf : findTask s i = some t) (hf' : findTask s' i = some t') :
    StepStatusOk t.status t'.status := by
  cases h with
  | submitStep ranges =>
    rw [findTask_submit hf] at hf'
    exact Or.inl (by rw [← Option.some.inj hf'])
  | dispatchStep =>
    by_cases hg : runningCount s < mc
    · rw [dispatchNext, if_pos hg] at hf'
      obtain ⟨u, hu, hrel⟩ := find?_id_dispatchFirstPending (by simpa [findTask] using hf')
      have hut : u = t := by
        have h1 : s.tasks.find? (fun t => t.id == i) = some t := by simpa [findTask] using hf
        exact Option.some.inj (hu.symm.trans h1)
      subst hut
      rcases hrel with rfl | ⟨hpend, rfl⟩
      · exact Or.inl rfl
      · exact Or.inr (Or.inl ⟨hpend, rfl⟩)
    · rw [dispatchNext, if_neg hg] at hf'
      rw [hf] at hf'
      exact Or.inl (by rw [← Option.some.inj hf'])
  | reportStep tid parsed =>
    have hmap : findTask (updateProgress s tid parsed) i =
        (findTask s i).map (fun t =>
          if t.id = tid ∧ t.status = Status.running then
            { t with progress := applyProgress t.progress parsed }
          else t) := by
      simp only [findTask, updateProgress]
      apply find?_id_map
      intro t
      by_cases h : t.id = tid ∧ t.status = Status.running
      · rw [if_pos h]
      · rw [if_neg h]
    rw [hmap, hf, Option.map_some'] at hf'
    have ht' := (Option.some.inj hf').symm
    by_cases h : t.id = tid ∧ t.status = Status.running
    · rw [if_pos h] at ht'
      exact Or.inl (by rw [ht'])
    · rw [if_neg h] at ht'
      exact Or.inl (by rw [ht'])
  | finishStep tid oc =>
    have hmap : findTask (finishTask s tid oc) i =
        (findTask s i).map (finishFun tid oc) := by
      simp only [findTask, finishTask]
      exact find?_id_map (finishFun_id tid oc) i
    rw [hmap, hf, Option.map_some'] at hf'
    have ht' := (Option.some.inj hf').symm
    by_cases h : t.id = tid ∧ t.status = Status.running
    · rw [finishFun.eq_def, if_pos h] at ht'
      cases oc with
      | success path =>
        refine Or.inr (Or.inr ⟨h.2, Or.inl ?_⟩)
        rw [ht']
      | failure msg =>
        refine Or.inr (Or.inr ⟨h.2, Or.inr ?_⟩)
        rw [ht']
    · rw [finishFun.eq_def, if_neg h] at ht'
      exact Or.inl (by rw [ht'])
  | clearStep =>
    have h1 : s.tasks.find? (fun t => t.id == i) = some t := by simpa [findTask] using hf
    have h2 : (s.tasks.filter (fun t => !t.status.isTerminal)).find?
        (fun t => t.id == i) = some t' := by simpa [findTask, clearCompleted] using hf'
    have htmem : t ∈ s.tasks := List.mem_of_find?_eq_some h1
    have ht'mem : t' ∈ s.tasks := (List.mem_filter.mp (List.mem_of_find?_eq_some h2)).1
    have hti : t.id = i := by simpa using List.find?_some h1
    have ht'i : t'.id = i := by simpa using List.find?_some h2
    have : t' = t :=
      List.inj_on_of_nodup_map hwf.2 ht'mem htmem (by rw [ht'i, hti])
    exact Or.inl (by rw [this])

/-- When two stores carry the same ids, an id absent from one is absent
from the other. -/
theorem find?_id_none_of_map_id_eq {l l' : List CutTask} {i : Nat}
    (hids : l'.map CutTask.id = l.map CutTask.id)
    (hnone : l.find? (fun t => t.id == i) = none) :
    l'.find? (fun t => t.id == i) = none := by
  rw [List.find?_eq_none] at hnone ⊢
  intro t' ht'
  have hmem : t'.id ∈ l.map CutTask.id := by
    rw [← hids]
    exact List.mem_map_of_mem _ ht'
  rcases List.mem_map.mp hmem with ⟨u, hu, hid⟩
  have hne := hnone u hu
  simp only [beq_iff_eq] at hne ⊢
  rw [← hid]
  exact hne

/-- An id below the counter that is absent from the store stays absent
across one event: events never resurrect an id. -/
theorem step_find_none {mc : Nat} {s s' : RegState} (h : Step mc s s') {i : Nat}
    (hi : i < s.nextId) (hnone : findTask s i = none) : findTask s' i = none := by
  cases h with
  | submitStep ranges =>
    rw [submit_state]
    simp only [findTask] at hnone ⊢
    rw [List.find?_append, hnone, Option.none_or, List.find?_eq_none]
    intro t ht
    have hmem : t.id ∈ List.range' s.nextId (countValid ranges) := by
      rw [← createdTasks_ids]
      exact List.mem_map_of_mem _ ht
    rcases List.mem_range'.mp hmem with ⟨j, hj, hEq⟩
    simp only [beq_iff_eq]
    omega
  | dispatchStep =>
    by_cases hg : runningCount s < mc
    · rw [dispatchNext, if_pos hg]
      simp only [findTask] at hnone ⊢
      exact find?_id_none_of_map_id_eq (dispatchFirstPending_map_id s.tasks) hnone
    · rwa [dispatchNext, if_neg hg]
  | reportStep tid parsed =>
    simp only [findTask] at hnone ⊢
    exact find?_id_none_of_map_id_eq (updateProgress_map_id s tid parsed) hnone
  | finishStep tid oc =>
    simp only [findTask] at hnone ⊢
    exact find?_id_none_of_map_id_eq (finishTask_map_id s tid oc) hnone
  | clearStep =>
    simp only [findTask, clearCompleted] at hnone ⊢
    rw [List.find?_eq_none] at hnone ⊢
    intro t ht
    exact hnone t (List.mem_filter.mp ht).1

/-- Along any trace from a well-formed state, a task's lifecycle rank
never decreases, and a terminal status never changes. -/
theorem reachable_status {mc : Nat} {s s' : RegState} (hwf : WF s)
    (h : Reachable mc s s') (i : Nat) :
    ∀ {t t' : CutTask}, findTask s i = some t → findTask s' i = some t' →
      statusRank t.status ≤ statusRank t'.status ∧
        (t.status.isTerminal = true → t'.status = t.status) := by
  induction h with
  | refl =>
    intro t t' hf hf'
    rw [hf] at hf'
    rw [← Option.some.inj hf']
    exact ⟨Nat.le_refl _, fun _ => rfl⟩
  | @tail s₂ s₃ hreach hstep ih =>
    intro t t' hf hf'
    have hwf₂ : WF s₂ := WF_reachable hwf hreach
    cases hmid : findTask s₂ i with
    | some u =>
      obtain ⟨hrank₂, hterm₂⟩ := ih hf hmid
      have hok : StepStatusOk u.status t'.status := step_status hstep hwf₂ hmid hf'
      refine ⟨le_trans hrank₂ hok.rank_le, fun ht => ?_⟩
      have h1 : u.status = t.status := hterm₂ ht
      have h2 : t'.status = u.status := hok.terminal (by rw [h1]; exact ht)
      rw [h2, h1]
    | none =>
      have hti : t.id = i := by
        have h1 : s.tasks.find? (fun t => t.id == i) = some t := by simpa [findTask] using hf
        simpa using List.find?_some h1
      have hmem : t ∈ s.tasks := by
        have h1 : s.tasks.find? (fun t => t.id == i) = some t := by simpa [findTask] using hf
        exact List.mem_of_find?_eq_some h1
      have hlt : i < s.nextId := hwf.1 i (by rw [← hti]; exact List.mem_map_of_mem _ hmem)
      have hle : s.nextId ≤ s₂.nextId := reachable_nextId_le hreach
      have hnone := step_find_none hstep (lt_of_lt_of_le hlt hle) hmid
      rw [hnone] at hf'
      exact Option.noConfusion hf'

/-- Claim C1: for every task, status transitions follow only the
monotonic lifecycle `pending → running → {done | failed}`: across one
event a task either keeps its status, is admitted `pending → running`,
or finishes `running → done/failed`; along any trace a task never
revisits `pending` after leaving it, and once `done` or `failed` no
further status transition occurs. -/
theorem lifecycle_monotonic (mc : Nat) :
    (∀ s s' : RegState, Step mc s s' → WF s → ∀ (i : Nat) (t t' : CutTask),
      findTask s i = some t → findTask s' i = some t' →
      StepStatusOk t.status t'.status) ∧
    (∀ s s' : RegState, WF s → Reachable mc s s' → ∀ (i : Nat) (t t' : CutTask),
      findTask s i = some t → findTask s' i = some t' →
      statusRank t.status ≤ statusRank t'.status ∧
        (t.status.isTerminal = true → t'.status = t.status)) := by
  constructor
  · intro s s' h hwf i t t' hf hf'
    exact step_status h hwf hf hf'
  · intro s s' hwf h i t t' hf hf'
    exact reachable_status hwf h i hf hf'

/-- Non-vacuity instance for claim C1: admitting the single pending task
of a one-task registry performs the allowed `pending → running`
transition. -/
theorem lifecycle_witness : StepStatusOk Status.pending Status.running :=
  (lifecycle_monotonic 2).1 oneTaskState (dispatchNext 2 oneTaskState)
    (Step.dispatchStep oneTaskState) (by decide) 0 (mkTask 0 0 5)
    { mkTask 0 0 5 with status := Status.running } (by decide) (by decide)
